import Mathlib

/-
Verification of the cursor-monitor reconciliation-and-persistence pipeline.

Shallow embedding of the Go sources:
  internal/api/usage.go        (GetUsage limit substitution)
  internal/api/invoice.go      (invoice math, pagination, line-item parsing)
  internal/storage             (idempotent writes, wholesale replace, pruning)
  internal/alerts/alerts.go    (threshold and on-demand-switch alerts)
  internal/monitor             (poll-cycle usage resolution)

Machine floats (float64) are modelled as exact rationals (ℚ); wall-clock
instants are modelled as integers (days for retention arithmetic, since the
code computes its cutoff with AddDate(0,0,-retentionDays)).
-/

/-! ### internal/monitor poll: usage resolution from events (lines 225-275) -/

/-- Count of events whose Kind field equals "Included", as in the
`includedCount` loop of `poll`. -/
def includedCount (eventKinds : List String) : Nat :=
  eventKinds.countP (fun k => decide (k = "Included"))

/-- Embedding of the requests-used / percentage resolution block of `poll`
(monitor package, lines 225-275).  Inputs are the coarse snapshot's
`IsOnDemand`, `PremiumRequestsUsed`, `PremiumRequestsLimit`,
`UsagePercentage`, and the Kind fields of the cycle's usage events
(the code takes them from `invoiceData.UsageEvents` when non-empty, else
from storage; both are the events of the billing cycle).  Returns the
resolved (requests-used, percentage). -/
def resolveRequestCounts (isOnDemand : Bool) (premiumRequestsUsed premiumRequestsLimit : Int)
    (usagePercentage : ℚ) (eventKinds : List String) : Int × ℚ :=
  if isOnDemand ∧ premiumRequestsUsed = 0 then
    let n : Int := includedCount eventKinds
    if 0 < n then
      (n, if 0 < premiumRequestsLimit
          then (n : ℚ) / (premiumRequestsLimit : ℚ) * 100
          else 100)
    else
      (premiumRequestsLimit, 100)
  else if isOnDemand ∧ premiumRequestsUsed < premiumRequestsLimit then
    (premiumRequestsLimit, 100)
  else
    (premiumRequestsUsed, usagePercentage)

/-! ### internal/api/usage.go: GetUsage limit substitution (lines 79-118) -/

/-- Processed usage view, the computed fields of `api.UsageData`. -/
structure UsageData where
  premiumRequestsUsed : Int
  premiumRequestsLimit : Int
  usagePercentage : ℚ
  isOnDemand : Bool
deriving DecidableEq

/-- Embedding of the computation in `GetUsage` after JSON decoding
(usage.go lines 79-118): limit defaulting (null or 0 becomes 500),
requests-used selection (`numRequestsTotal` preferred unless 0),
percentage, and the on-demand flag. -/
def getUsageCompute (maxRequestUsage : Option Int) (numRequestsTotal numRequests : Int) :
    UsageData :=
  let limit0 : Int := match maxRequestUsage with
    | some l => l
    | none => 0
  let limit : Int := if limit0 = 0 then 500 else limit0
  let requestsUsed : Int := if numRequestsTotal = 0 then numRequests else numRequestsTotal
  let usagePct : ℚ := if 0 < limit then (requestsUsed : ℚ) / (limit : ℚ) * 100 else 0
  { premiumRequestsUsed := requestsUsed
    premiumRequestsLimit := limit
    usagePercentage := usagePct
    isOnDemand := decide (limit ≤ requestsUsed) }

/-! ### internal/api/invoice.go: on-demand total; monitor poll: running total -/

/-- Remote invoice line item (`api.InvoiceItem`): free-text description plus
a cents amount. -/
structure RemoteInvoiceItem where
  description : String
  cents : Int
deriving DecidableEq

/-- Case-sensitive substring test on character lists (haystack, needle). -/
def containsCharList : List Char → List Char → Bool
  | [], needle => needle.isEmpty
  | h :: t, needle => needle.isPrefixOf (h :: t) || containsCharList t needle

/-- Embedding of the repo's `contains` helper: case-insensitive substring
test via lower-casing both strings. -/
def containsCI (s sub : String) : Bool :=
  containsCharList s.toLower.data sub.toLower.data

/-- Embedding of the `totalOnDemandCents` accumulation in `tryGetInvoice`
(invoice.go lines 391-403): skip "Mid-month usage paid" items, add the
cents of every remaining item with positive cents. -/
def totalOnDemandCents (items : List RemoteInvoiceItem) : Int :=
  items.foldl
    (fun acc item =>
      if containsCI item.description "Mid-month usage paid" then acc
      else if 0 < item.cents then acc + item.cents else acc)
    0

/-- Embedding of the running on-demand total of `poll` (monitor package,
lines 200-217): start from the remote invoice total, and if stored invoice
items exist for the cycle and their summed cost exceeds it, use that sum. -/
def computeRunningOnDemandCents (remoteTotal : Int) (storedCosts : List Int) : Int :=
  if 0 < storedCosts.length ∧ remoteTotal < storedCosts.sum then storedCosts.sum
  else remoteTotal

/-! ### internal/alerts/alerts.go: on-demand switch (lines 74-83) -/

/-- Embedding of `CheckOnDemandSwitch`: the notification fires exactly when
the current snapshot is on-demand and the previous one was not.  The spend
argument only feeds the message text; no ledger is read or written. -/
def checkOnDemandSwitch (currentIsOnDemand previousIsOnDemand : Bool)
    (_onDemandSpendCents : Int) : Bool :=
  currentIsOnDemand && !previousIsOnDemand

/-! ### internal/storage: row types (storage.go structs, migrations.go schema) -/

/-- Row of the `alerts_sent` table (`storage.RecordAlert` insert columns);
the schema declares UNIQUE(alert_type, threshold_value, billing_cycle). -/
structure AlertRow where
  timestamp : Int
  alertType : String
  thresholdValue : ℚ
  billingCycle : String
deriving DecidableEq

/-- Row of the `invoice_items` table (`storage.InvoiceItem` minus the
generated id). -/
structure InvoiceItemRow where
  billingCycle : String
  modelName : String
  requestCount : Int
  costCents : Int
  isDiscounted : Bool
  fetchedAt : Int
deriving DecidableEq

/-- Row of the `usage_events` table (`storage.UsageEvent` minus the
generated id); the schema declares
UNIQUE(event_date, model, kind, total_tokens). -/
structure UsageEventRow where
  eventDate : Int
  billingCycle : String
  kind : String
  model : String
  maxMode : String
  inputWithCacheWrite : Int
  inputWithoutCacheWrite : Int
  cacheRead : Int
  outputTokens : Int
  totalTokens : Int
  cost : ℚ
  fetchedAt : Int
deriving DecidableEq

/-- Row of the `usage_snapshots` table (`storage.UsageSnapshot` minus the
generated id). -/
structure UsageSnapshotRow where
  timestamp : Int
  billingCycleStart : Int
  premiumRequestsUsed : Int
  premiumRequestsLimit : Int
  usagePercentage : ℚ
  isOnDemand : Bool
  onDemandSpendCents : Int
  rawResponse : String
deriving DecidableEq

/-! ### internal/storage: SaveUsageEvents (insert-or-ignore on natural key) -/

/-- Natural key of a usage event, the UNIQUE columns of `usage_events`:
(event_date, model, kind, total_tokens). -/
def naturalKey (e : UsageEventRow) : Int × String × String × Int :=
  (e.eventDate, e.model, e.kind, e.totalTokens)

/-- Whether some row of the table has the given natural key. -/
def hasKey (table : List UsageEventRow) (k : Int × String × String × Int) : Bool :=
  table.any fun r => decide (naturalKey r = k)

/-- One `INSERT OR IGNORE INTO usage_events` statement: if a row with the
same natural key exists, the insert is skipped; otherwise the row is
appended. -/
def insertEventOrIgnore (table : List UsageEventRow) (e : UsageEventRow) :
    List UsageEventRow :=
  if hasKey table (naturalKey e) then table else table ++ [e]

/-- Embedding of `storage.SaveUsageEvents`: each event is inserted with
INSERT OR IGNORE, with the `billing_cycle` column taken from the function's
billingCycle argument (the other columns from the event). -/
def SaveUsageEvents (billingCycle : String) (table : List UsageEventRow)
    (events : List UsageEventRow) : List UsageEventRow :=
  events.foldl (fun t e => insertEventOrIgnore t { e with billingCycle := billingCycle }) table

/-! ### internal/storage: SaveInvoiceItems (transactional wholesale replace) -/

/-- A statement executed inside the `SaveInvoiceItems` transaction. -/
inductive InvoiceDbOp where
  | deleteCycle (billingCycle : String)
  | insertItem (item : InvoiceItemRow)
deriving DecidableEq

/-- Effect of one statement on the `invoice_items` table. -/
def applyInvoiceOp (table : List InvoiceItemRow) : InvoiceDbOp → List InvoiceItemRow
  | .deleteCycle bc => table.filter fun r => !(decide (r.billingCycle = bc))
  | .insertItem it => table ++ [it]

/-- Effect of a statement sequence on the `invoice_items` table. -/
def applyInvoiceOps (table : List InvoiceItemRow) (ops : List InvoiceDbOp) :
    List InvoiceItemRow :=
  ops.foldl applyInvoiceOp table

/-- The statement sequence issued by `storage.SaveInvoiceItems` inside its
transaction: one DELETE of the cycle's rows, then one INSERT per supplied
item, in order. -/
def saveInvoiceItemsOps (billingCycle : String) (items : List InvoiceItemRow) :
    List InvoiceDbOp :=
  .deleteCycle billingCycle :: items.map .insertItem

/-- Transactional execution with sqlite's all-or-nothing semantics, as
arranged by `SaveInvoiceItems` (Begin, deferred Rollback unless committed,
Commit at the end): `failAt = some k` with k inside the sequence models a
failure at the k-th statement, after which the rollback restores the
original table; otherwise every statement applies and the commit publishes
the result.  Returns (committed?, durable table). -/
def runInvoiceTransaction (table : List InvoiceItemRow) (ops : List InvoiceDbOp)
    (failAt : Option Nat) : Bool × List InvoiceItemRow :=
  match failAt with
  | none => (true, applyInvoiceOps table ops)
  | some k => if k < ops.length then (false, table) else (true, applyInvoiceOps table ops)

/-- Embedding of `storage.SaveInvoiceItems`: run the delete-then-insert
sequence in one transaction. -/
def SaveInvoiceItems (billingCycle : String) (table : List InvoiceItemRow)
    (items : List InvoiceItemRow) (failAt : Option Nat) : Bool × List InvoiceItemRow :=
  runInvoiceTransaction table (saveInvoiceItemsOps billingCycle items) failAt

/-! ### internal/storage: CleanupOldData (retention pruning) -/

/-- The four persisted tables of the monitor database. -/
structure MonitorDb where
  usageSnapshots : List UsageSnapshotRow
  alertsSent : List AlertRow
  invoiceItems : List InvoiceItemRow
  usageEvents : List UsageEventRow
deriving DecidableEq

/-- Embedding of `storage.CleanupOldData`: one shared cutoff of now minus
retentionDays (the code computes it with AddDate(0,0,-retentionDays), so
time is measured in days here), then one DELETE per table removing rows
whose timestamp column (`timestamp` for snapshots and alerts, `fetched_at`
for invoice items and usage events) is strictly below the cutoff. -/
def CleanupOldData (now : Int) (retentionDays : Int) (db : MonitorDb) : MonitorDb :=
  let cutoff := now - retentionDays
  { usageSnapshots := db.usageSnapshots.filter fun r => !(decide (r.timestamp < cutoff))
    alertsSent := db.alertsSent.filter fun r => !(decide (r.timestamp < cutoff))
    invoiceItems := db.invoiceItems.filter fun r => !(decide (r.fetchedAt < cutoff))
    usageEvents := db.usageEvents.filter fun r => !(decide (r.fetchedAt < cutoff)) }

/-- A snapshot row whose only relevant field is its timestamp (the other
columns are fixed defaults); used to state the retention example. -/
def snapshotAt (t : Int) : UsageSnapshotRow :=
  { timestamp := t, billingCycleStart := 0, premiumRequestsUsed := 0
    premiumRequestsLimit := 0, usagePercentage := 0, isOnDemand := false
    onDemandSpendCents := 0, rawResponse := "" }

/-! ### internal/storage + internal/alerts: threshold alert ledger -/

/-- Embedding of `storage.AlertAlreadySent`: COUNT(*) over rows matching
(alert_type, threshold_value, billing_cycle), compared with zero. -/
def AlertAlreadySent (ledger : List AlertRow) (alertType : String) (thresholdValue : ℚ)
    (billingCycle : String) : Bool :=
  ledger.any fun r =>
    decide (r.alertType = alertType ∧ r.thresholdValue = thresholdValue
      ∧ r.billingCycle = billingCycle)

/-- Embedding of `storage.RecordAlert`: INSERT OR IGNORE into `alerts_sent`,
whose UNIQUE(alert_type, threshold_value, billing_cycle) constraint makes
the insert a no-op when a matching row exists; `now` fills the timestamp
column. -/
def RecordAlert (now : Int) (ledger : List AlertRow) (alertType : String)
    (thresholdValue : ℚ) (billingCycle : String) : List AlertRow :=
  if AlertAlreadySent ledger alertType thresholdValue billingCycle then ledger
  else ledger ++ [⟨now, alertType, thresholdValue, billingCycle⟩]

/-- Embedding of `alerts.CheckThresholdAlert` wired to the storage
callbacks as in `poll`: for each configured threshold not above the usage
percentage, consult the ledger; if absent, deliver the notification
(`deliverOk` says whether delivery succeeds, as `SendNotification` may
fail) and then record the alert.  A delivery failure returns immediately
(error), leaving later thresholds unprocessed and the failed threshold
unrecorded.  Returns (ledger, delivered thresholds, no-error flag). -/
def CheckThresholdAlert (usagePct : ℚ) (thresholds : List ℚ) (billingCycle : String)
    (now : Int) (deliverOk : ℚ → Bool) (ledger : List AlertRow) :
    List AlertRow × List ℚ × Bool :=
  match thresholds with
  | [] => (ledger, [], true)
  | th :: rest =>
    if th ≤ usagePct then
      if AlertAlreadySent ledger "threshold" th billingCycle then
        CheckThresholdAlert usagePct rest billingCycle now deliverOk ledger
      else if deliverOk th then
        let ledger1 := RecordAlert now ledger "threshold" th billingCycle
        let r := CheckThresholdAlert usagePct rest billingCycle now deliverOk ledger1
        (r.1, th :: r.2.1, r.2.2)
      else (ledger, [], false)
    else CheckThresholdAlert usagePct rest billingCycle now deliverOk ledger

/-- Number of ledger rows for a given threshold and billing cycle (of
alert type "threshold"). -/
def countThresholdEntries (ledger : List AlertRow) (thresholdValue : ℚ)
    (billingCycle : String) : Nat :=
  ledger.countP fun r =>
    decide (r.alertType = "threshold" ∧ r.thresholdValue = thresholdValue
      ∧ r.billingCycle = billingCycle)

/-! ### internal/api/invoice.go: getFilteredUsageEvents pagination (lines 421-631) -/

/-- A paginated endpoint serving the fixed event collection `events` in
order: page p (1-based) holds the elements from index (p-1)*pageSize,
at most pageSize of them — full pages until the collection is exhausted,
as the claimed conforming endpoint behaves. -/
def conformingServer {α : Type} (events : List α) (pageSize : Nat) : Nat → List α :=
  fun page => (events.drop ((page - 1) * pageSize)).take pageSize

/-- Embedding of the page loop of `getFilteredUsageEvents`: fetch the
current page, append its events, stop when the page is short
(count < pageSize) or when a positive reported total has been reached by
the accumulated count; otherwise continue with the next page.  `fuel`
bounds the iteration; `none` models a loop that did not terminate within
`fuel` pages.  Returns (last page requested, all events). -/
def fetchUsageEventPages {α : Type} (server : Nat → List α) (pageSize : Nat) :
    Nat → Nat → List α → Nat → Option (Nat × List α)
  | 0, _, _, _ => none
  | fuel + 1, page, allEvents, totalCount =>
    let pageEvents := server page
    let acc := allEvents ++ pageEvents
    if pageEvents.length < pageSize then some (page, acc)
    else if 0 < totalCount ∧ totalCount ≤ acc.length then some (page, acc)
    else fetchUsageEventPages server pageSize fuel (page + 1) acc totalCount

/-- Embedding of `getFilteredUsageEvents`: start at page 1 with no
accumulated events; `reportedTotal` is the `totalUsageEventsCount` the
server reports on the first page (the code reads it only there).  The page
size is a parameter here; the code fixes it to 100. -/
def getFilteredUsageEvents {α : Type} (server : Nat → List α) (pageSize : Nat)
    (reportedTotal : Nat) (fuel : Nat) : Option (Nat × List α) :=
  fetchUsageEventPages server pageSize fuel 1 [] reportedTotal

/-! ### internal/api/invoice.go: ParseInvoiceItem (lines 655-677) -/

/-- Whitespace class of the Go regexp escape used by the two patterns
(space, tab, newline, carriage return, form feed). -/
def isGoSpace (c : Char) : Bool :=
  c == ' ' || c == '\t' || c == '\n' || c == '\r' || c == '\x0c'

/-- Numeric value of a digit run, as strconv.Atoi reads the first capture
group. -/
def digitsToNat (ds : List Char) : Nat :=
  ds.foldl (fun n c => 10 * n + (c.toNat - '0'.toNat)) 0

/-- Drop a literal character sequence from the front of the input, or fail. -/
def dropLit : List Char → List Char → Option (List Char)
  | [], rest => some rest
  | _ :: _, [] => none
  | c :: cs, d :: ds => if c == d then dropLit cs ds else none

/-- Consume one-or-more whitespace characters (greedy), or fail if there
are none. -/
def afterWsPlus (s : List Char) : Option (List Char) :=
  if (s.takeWhile isGoSpace).isEmpty then none else some (s.dropWhile isGoSpace)

/-- Recognise the non-capturing alternative of the token-based pattern: a
comma, one-or-more whitespace, then the literal "totalling". -/
def totallingTail (post : List Char) : Bool :=
  match post with
  | ',' :: rest =>
    match afterWsPlus rest with
    | some rest2 => (dropLit "totalling".data rest2).isSome
    | none => false
  | _ => false

/-- strings.TrimSpace on a character list (whitespace stripped from both
ends). -/
def trimSpaceGo (s : List Char) : String :=
  ⟨((s.dropWhile isGoSpace).reverse.dropWhile isGoSpace).reverse⟩

/-- Embedding of the first pattern of `ParseInvoiceItem`, the anchored Go
regexp matching digits, whitespace, the literal "token-based usage calls
to", whitespace, then a lazy non-comma model capture closed by either
", totalling" or the end of the string.  The lazy capture is resolved
deterministically: the capture runs to the first comma (whose tail must
then read ", totalling") or to the end of the string; when the first
non-whitespace character after "to" is already a comma (or nothing
remains) but at least two whitespace characters were available, the
capture can still match a final whitespace character, which the caller's
TrimSpace (applied here, as at the call site) reduces to the empty model
name.  Returns (trimmed model capture, count). -/
def tokenBasedMatch (s : String) : Option (String × Nat) :=
  let cs := s.data
  let digits := cs.takeWhile Char.isDigit
  if digits.isEmpty then none
  else
    match afterWsPlus (cs.dropWhile Char.isDigit) with
    | none => none
    | some rest1 =>
      match dropLit "token-based usage calls to".data rest1 with
      | none => none
      | some rest2 =>
        let wsLen := (rest2.takeWhile isGoSpace).length
        if wsLen = 0 then none
        else
          let rest3 := rest2.dropWhile isGoSpace
          let modelChars := rest3.takeWhile (fun c => !(c == ','))
          let post := rest3.dropWhile (fun c => !(c == ','))
          if !modelChars.isEmpty then
            if post.isEmpty || totallingTail post then
              some (trimSpaceGo modelChars, digitsToNat digits)
            else none
          else
            if 2 ≤ wsLen ∧ (post.isEmpty ∨ totallingTail post = true) then
              some ("", digitsToNat digits)
            else none

/-- Embedding of the second (fallback) pattern of `ParseInvoiceItem`, the
anchored Go regexp matching digits, whitespace, then one-or-more
characters drawn from letters, digits, underscore, dot and hyphen (the
model capture).  Nothing after the model word is inspected. -/
def fallbackMatch (s : String) : Option (String × Nat) :=
  let cs := s.data
  let digits := cs.takeWhile Char.isDigit
  if digits.isEmpty then none
  else
    match afterWsPlus (cs.dropWhile Char.isDigit) with
    | none => none
    | some rest1 =>
      let word := rest1.takeWhile (fun c => c.isAlphanum || c == '_' || c == '.' || c == '-')
      if word.isEmpty then none
      else some (trimSpaceGo word, digitsToNat digits)

/-- Embedding of `api.ParseInvoiceItem`: try the token-based pattern, then
the fallback pattern, and return an explicit error when neither matches. -/
def ParseInvoiceItem (item : RemoteInvoiceItem) : Except String (String × Nat) :=
  match tokenBasedMatch item.description with
  | some (model, count) => Except.ok (model, count)
  | none =>
    match fallbackMatch item.description with
    | some (model, count) => Except.ok (model, count)
    | none => Except.error ("could not parse invoice item: " ++ item.description)

/-- Whether an Except value is an error. -/
def isParseError {ε α : Type} : Except ε α → Bool
  | .error _ => true
  | .ok _ => false

/-- Modelled from the spec: the spec writes the fallback pattern as
`<N> <model> requests` — an integer, whitespace, a model word, whitespace,
and the literal word "requests".  The code's fallback regexp stops after
the model word, so this spec-faithful predicate is strictly stronger; it
exists to compare the two. -/
def specFallbackPattern (s : String) : Bool :=
  let cs := s.data
  let digits := cs.takeWhile Char.isDigit
  if digits.isEmpty then false
  else
    match afterWsPlus (cs.dropWhile Char.isDigit) with
    | none => false
    | some rest1 =>
      let word := rest1.takeWhile (fun c => c.isAlphanum || c == '_' || c == '.' || c == '-')
      if word.isEmpty then false
      else
        match afterWsPlus (rest1.drop word.length) with
        | none => false
        | some rest2 => (dropLit "requests".data rest2).isSome

/-! ### Theorems -/

theorem totalOnDemandCents_go_nonneg (items : List RemoteInvoiceItem) (acc : Int)
    (h : 0 ≤ acc) :
    0 ≤ items.foldl
      (fun acc item =>
        if containsCI item.description "Mid-month usage paid" then acc
        else if 0 < item.cents then acc + item.cents else acc)
      acc := by
  induction items generalizing acc with
  | nil => simpa using h
  | cons it rest ih =>
    simp only [List.foldl_cons]
    apply ih
    split
    · exact h
    · split
      · omega
      · exact h

theorem totalOnDemandCents_nonneg (items : List RemoteInvoiceItem) :
    0 ≤ totalOnDemandCents items :=
  totalOnDemandCents_go_nonneg items 0 le_rfl

/-- C4: the resolved on-demand spend for a cycle is the maximum of the
remote billing-item total and the sum of the previously persisted items'
costs, hence it is never smaller than either input. -/
theorem resolved_spend_is_max (remoteItems : List RemoteInvoiceItem) (storedCosts : List Int) :
    computeRunningOnDemandCents (totalOnDemandCents remoteItems) storedCosts
      = max (totalOnDemandCents remoteItems) storedCosts.sum
    ∧ totalOnDemandCents remoteItems
        ≤ computeRunningOnDemandCents (totalOnDemandCents remoteItems) storedCosts
    ∧ storedCosts.sum
        ≤ computeRunningOnDemandCents (totalOnDemandCents remoteItems) storedCosts := by
  have hnn : 0 ≤ totalOnDemandCents remoteItems := totalOnDemandCents_nonneg remoteItems
  have hmax : computeRunningOnDemandCents (totalOnDemandCents remoteItems) storedCosts
      = max (totalOnDemandCents remoteItems) storedCosts.sum := by
    unfold computeRunningOnDemandCents
    rcases storedCosts with _ | ⟨c, cs⟩
    · simp
      omega
    · split
      · rename_i hcond
        have := hcond.2
        omega
      · rename_i hcond
        simp only [List.length_cons, not_and, not_lt] at hcond
        have := hcond (by omega)
        omega
  refine ⟨hmax, ?_, ?_⟩
  · rw [hmax]; exact le_max_left _ _
  · rw [hmax]; exact le_max_right _ _

/-- C7: the on-demand mode-switch alert fires if and only if the current
snapshot's on-demand flag is true and the previous snapshot's flag is
false (a rising edge); in particular it fires for previous = false,
current = true, and never for current = false or previous = true.  The
check takes no ledger argument at all, so it reads and writes no ledger
state. -/
theorem onDemandSwitch_rising_edge_only :
    (∀ cur prev spend, checkOnDemandSwitch cur prev spend = true ↔ (cur = true ∧ prev = false))
    ∧ checkOnDemandSwitch true false 1234 = true
    ∧ checkOnDemandSwitch true true 1234 = false
    ∧ (∀ prev spend, checkOnDemandSwitch false prev spend = false) := by
  refine ⟨?_, rfl, rfl, ?_⟩
  · intro cur prev spend
    cases cur <;> cases prev <;> simp [checkOnDemandSwitch]
  · intro prev spend
    cases prev <;> rfl

/-- C10: whenever the parsed hard-limit field (`maxRequestUsage`) is null or
zero, `GetUsage` substitutes the default limit 500; the returned percentage
is requests-used over 500 times 100, the on-demand flag is
requests-used ≥ 500, and the returned limit is never zero. -/
theorem getUsage_default_limit (maxRequestUsage : Option Int) (numRequestsTotal numRequests : Int)
    (h : maxRequestUsage = none ∨ maxRequestUsage = some 0) :
    (getUsageCompute maxRequestUsage numRequestsTotal numRequests).premiumRequestsLimit = 500
    ∧ (getUsageCompute maxRequestUsage numRequestsTotal numRequests).usagePercentage
        = ((getUsageCompute maxRequestUsage numRequestsTotal numRequests).premiumRequestsUsed : ℚ)
            / 500 * 100
    ∧ (getUsageCompute maxRequestUsage numRequestsTotal numRequests).isOnDemand
        = decide (500 ≤ (getUsageCompute maxRequestUsage numRequestsTotal numRequests).premiumRequestsUsed)
    ∧ (getUsageCompute maxRequestUsage numRequestsTotal numRequests).premiumRequestsLimit ≠ 0 := by
  rcases h with h | h <;> subst h <;> simp [getUsageCompute]

/-- Witness for C10 at a concrete input: a null limit with 600 total
requests yields limit 500, percentage 120, and the on-demand flag set. -/
theorem getUsage_default_limit_witness :
    (getUsageCompute none 600 0).premiumRequestsLimit = 500
    ∧ (getUsageCompute none 600 0).usagePercentage
        = ((getUsageCompute none 600 0).premiumRequestsUsed : ℚ) / 500 * 100
    ∧ (getUsageCompute none 600 0).isOnDemand
        = decide (500 ≤ (getUsageCompute none 600 0).premiumRequestsUsed)
    ∧ (getUsageCompute none 600 0).premiumRequestsLimit ≠ 0 :=
  getUsage_default_limit none 600 0 (Or.inl rfl)

/-- C1 counterexample: with on-demand = true, coarse requests-used = 1
(which is "less than the limit" 500) and 42 Included events persisted for
the cycle, the resolver does NOT recompute requests-used from the events:
it returns (500, 100%), not (42, 8.4%) as the claim requires. -/
theorem resolve_counterexample :
    resolveRequestCounts true 1 500 (1/5) (List.replicate 42 "Included") = (500, 100)
    ∧ includedCount (List.replicate 42 "Included") = 42
    ∧ resolveRequestCounts true 1 500 (1/5) (List.replicate 42 "Included")
        ≠ (42, (42 : ℚ) / 500 * 100) := by
  refine ⟨by decide, by decide, by decide⟩

/-- C1 amended: only when the coarse requests-used counter is exactly zero
(and on-demand is true) does the resolver recompute requests-used as the
count of Included-kind events for the cycle, with percentage count/limit
times 100 (100% when no included event exists, in which case requests-used
is set to the limit); when the coarse counter is positive but below the
limit, the resolver instead sets requests-used = limit and
percentage = 100% without consulting the events. -/
theorem resolve_requests_from_events (limit used : Int) (pct : ℚ) (kinds : List String) :
    (used = 0 → 0 < limit →
      resolveRequestCounts true used limit pct kinds
        = if 0 < includedCount kinds
          then ((includedCount kinds : Int), ((includedCount kinds : Int) : ℚ) / (limit : ℚ) * 100)
          else (limit, 100))
    ∧ (0 < used → used < limit →
      resolveRequestCounts true used limit pct kinds = (limit, 100)) := by
  constructor
  · intro h0 hlim
    subst h0
    unfold resolveRequestCounts
    rw [if_pos ⟨rfl, rfl⟩]
    by_cases hn : 0 < includedCount kinds
    · rw [if_pos (by exact_mod_cast hn), if_pos hn, if_pos hlim]
    · rw [if_neg (by exact_mod_cast hn), if_neg hn]
  · intro h1 h2
    unfold resolveRequestCounts
    rw [if_neg (by rintro ⟨-, h⟩; omega), if_pos ⟨rfl, h2⟩]

/-- Witness for C1 amended at the claim's own numbers: used = 0, limit =
500 with 42 Included events resolves to (42, 8.4%); with no events it
resolves to (500, 100%); and used = 250 < 500 resolves to (500, 100%). -/
theorem resolve_requests_from_events_witness :
    resolveRequestCounts true 0 500 0 (List.replicate 42 "Included") = (42, (42 : ℚ) / 5)
    ∧ resolveRequestCounts true 0 500 0 [] = (500, 100)
    ∧ resolveRequestCounts true 250 500 50 [] = (500, 100) := by
  refine ⟨?_, ?_, ?_⟩
  · have h := (resolve_requests_from_events 500 0 0 (List.replicate 42 "Included")).1 rfl
      (by norm_num)
    have hc : includedCount (List.replicate 42 "Included") = 42 := by decide
    rw [h, hc, if_pos (by norm_num)]
    norm_num
  · have h := (resolve_requests_from_events 500 0 0 []).1 rfl (by norm_num)
    have hc : includedCount [] = 0 := by decide
    rw [h, hc, if_neg (by norm_num)]
  · exact (resolve_requests_from_events 500 250 50 []).2 (by norm_num) (by norm_num)

/-- C9: retention pruning with retention N uses the single shared cutoff
now - N for all four tables; a row survives its table's delete exactly
when it was in the table and its timestamp column is at or after the
cutoff (rows strictly older are removed).  In particular, pruning at
retention 90 removes a snapshot timestamped 100 days before now and keeps
one timestamped 10 days before now. -/
theorem cleanup_prunes_strictly_older (now retentionDays : Int) (db : MonitorDb) :
    (∀ r, r ∈ (CleanupOldData now retentionDays db).usageSnapshots
        ↔ r ∈ db.usageSnapshots ∧ now - retentionDays ≤ r.timestamp)
    ∧ (∀ r, r ∈ (CleanupOldData now retentionDays db).alertsSent
        ↔ r ∈ db.alertsSent ∧ now - retentionDays ≤ r.timestamp)
    ∧ (∀ r, r ∈ (CleanupOldData now retentionDays db).invoiceItems
        ↔ r ∈ db.invoiceItems ∧ now - retentionDays ≤ r.fetchedAt)
    ∧ (∀ r, r ∈ (CleanupOldData now retentionDays db).usageEvents
        ↔ r ∈ db.usageEvents ∧ now - retentionDays ≤ r.fetchedAt)
    ∧ (CleanupOldData now 90
          ⟨[snapshotAt (now - 100), snapshotAt (now - 10)], [], [], []⟩).usageSnapshots
        = [snapshotAt (now - 10)] := by
  refine ⟨?_, ?_, ?_, ?_, ?_⟩
  · intro r
    simp [CleanupOldData, List.mem_filter, not_lt]
  · intro r
    simp [CleanupOldData, List.mem_filter, not_lt]
  · intro r
    simp [CleanupOldData, List.mem_filter, not_lt]
  · intro r
    simp [CleanupOldData, List.mem_filter, not_lt]
  · have h1 : now - 100 < now - 90 := by omega
    have h2 : ¬ (now - 10 < now - 90) := by omega
    simp [CleanupOldData, snapshotAt, List.filter, h1, h2]

theorem naturalKey_set_billingCycle (e : UsageEventRow) (bc : String) :
    naturalKey { e with billingCycle := bc } = naturalKey e := rfl

theorem hasKey_insertEventOrIgnore (t : List UsageEventRow) (e : UsageEventRow)
    (k : Int × String × String × Int) :
    hasKey (insertEventOrIgnore t e) k = (hasKey t k || decide (naturalKey e = k)) := by
  unfold insertEventOrIgnore
  split
  · rename_i h
    by_cases hk : naturalKey e = k
    · subst hk
      simp [h]
    · simp [hk]
  · simp [hasKey, List.any_append]

theorem hasKey_saveUsageEvents_mono (bc : String) (es : List UsageEventRow)
    (t : List UsageEventRow) (k : Int × String × String × Int)
    (h : hasKey t k = true) : hasKey (SaveUsageEvents bc t es) k = true := by
  induction es generalizing t with
  | nil => simpa [SaveUsageEvents] using h
  | cons f rest ih =>
    simp only [SaveUsageEvents, List.foldl_cons] at *
    apply ih
    rw [hasKey_insertEventOrIgnore, h, Bool.true_or]

theorem hasKey_saveUsageEvents_of_mem (bc : String) (es : List UsageEventRow)
    (t : List UsageEventRow) (e : UsageEventRow) (he : e ∈ es) :
    hasKey (SaveUsageEvents bc t es) (naturalKey e) = true := by
  induction es generalizing t with
  | nil => cases he
  | cons f rest ih =>
    simp only [SaveUsageEvents, List.foldl_cons] at *
    rcases List.mem_cons.mp he with rfl | he'
    · apply hasKey_saveUsageEvents_mono
      rw [hasKey_insertEventOrIgnore]
      simp [naturalKey_set_billingCycle]
    · exact ih _ he'

theorem saveUsageEvents_noop (bc : String) (es : List UsageEventRow)
    (t : List UsageEventRow) (h : ∀ e ∈ es, hasKey t (naturalKey e) = true) :
    SaveUsageEvents bc t es = t := by
  induction es generalizing t with
  | nil => rfl
  | cons f rest ih =>
    simp only [SaveUsageEvents, List.foldl_cons] at *
    have hins : insertEventOrIgnore t { f with billingCycle := bc } = t := by
      unfold insertEventOrIgnore
      rw [naturalKey_set_billingCycle, if_pos (h f (List.mem_cons_self f rest))]
    rw [hins]
    exact ih t (fun e he => h e (List.mem_cons_of_mem f he))

theorem keysDistinct_insertEventOrIgnore (t : List UsageEventRow) (e : UsageEventRow)
    (h : List.Pairwise (fun a b => naturalKey a ≠ naturalKey b) t) :
    List.Pairwise (fun a b => naturalKey a ≠ naturalKey b) (insertEventOrIgnore t e) := by
  by_cases hno : hasKey t (naturalKey e) = true
  · rw [insertEventOrIgnore, if_pos hno]
    exact h
  · rw [insertEventOrIgnore, if_neg hno]
    rw [List.pairwise_append]
    refine ⟨h, List.pairwise_singleton _ _, ?_⟩
    intro a ha b hb
    have hb' : b = e := by simpa using hb
    subst hb'
    intro hk
    apply hno
    simp only [hasKey, List.any_eq_true, decide_eq_true_eq]
    exact ⟨a, ha, hk⟩

/-- C3: persisting usage events is idempotent on the natural key
(event timestamp, model, kind, total tokens): saving the same event list a
second time returns the table of the first save unchanged; saving an event
whose natural key is already present leaves the table unchanged; and a
table with pairwise-distinct natural keys keeps that property, so no
duplicate row is ever created (the model is total, so no error is
possible on a duplicate). -/
theorem saveUsageEvents_idempotent (bc : String) (t : List UsageEventRow)
    (es : List UsageEventRow) :
    SaveUsageEvents bc (SaveUsageEvents bc t es) es = SaveUsageEvents bc t es
    ∧ (∀ e, hasKey t (naturalKey e) = true → SaveUsageEvents bc t [e] = t)
    ∧ (List.Pairwise (fun a b => naturalKey a ≠ naturalKey b) t →
        List.Pairwise (fun a b => naturalKey a ≠ naturalKey b) (SaveUsageEvents bc t es)) := by
  refine ⟨?_, ?_, ?_⟩
  · exact saveUsageEvents_noop bc es _ (fun e he => hasKey_saveUsageEvents_of_mem bc es t e he)
  · intro e he
    exact saveUsageEvents_noop bc [e] t (by simpa using he)
  · intro h
    induction es generalizing t with
    | nil => exact h
    | cons f rest ih =>
      simp only [SaveUsageEvents, List.foldl_cons] at *
      exact ih _ (keysDistinct_insertEventOrIgnore t _ h)

/-- Witness for C3: a stored row and a later event that share the natural
key (timestamp 1, model "m", kind "Included", total tokens 2) but differ
in every other column; re-saving leaves the table exactly as it was. -/
theorem saveUsageEvents_idempotent_witness :
    SaveUsageEvents "2026-02-18" [⟨1, "2026-02-18", "Included", "m", "", 1, 0, 0, 1, 2, 0, 7⟩]
        [⟨1, "2026-03-18", "Included", "m", "x", 3, 0, 0, 9, 2, 5, 8⟩]
      = [⟨1, "2026-02-18", "Included", "m", "", 1, 0, 0, 1, 2, 0, 7⟩] :=
  (saveUsageEvents_idempotent "2026-02-18"
      [⟨1, "2026-02-18", "Included", "m", "", 1, 0, 0, 1, 2, 0, 7⟩] []).2.1
    ⟨1, "2026-03-18", "Included", "m", "x", 3, 0, 0, 9, 2, 5, 8⟩ (by decide)

theorem applyInvoiceOps_insertItems (t : List InvoiceItemRow) (items : List InvoiceItemRow) :
    applyInvoiceOps t (items.map InvoiceDbOp.insertItem) = t ++ items := by
  induction items generalizing t with
  | nil => simp [applyInvoiceOps]
  | cons it rest ih =>
    calc applyInvoiceOps t ((it :: rest).map InvoiceDbOp.insertItem)
        = applyInvoiceOps (t ++ [it]) (rest.map InvoiceDbOp.insertItem) := rfl
      _ = (t ++ [it]) ++ rest := ih _
      _ = t ++ it :: rest := by simp

theorem saveInvoiceItems_committed_state (bc : String) (table items : List InvoiceItemRow)
    (hcycle : ∀ it ∈ items, it.billingCycle = bc) :
    (applyInvoiceOps table (saveInvoiceItemsOps bc items)).filter
        (fun r => decide (r.billingCycle = bc)) = items
    ∧ (applyInvoiceOps table (saveInvoiceItemsOps bc items)).filter
        (fun r => !(decide (r.billingCycle = bc)))
      = table.filter (fun r => !(decide (r.billingCycle = bc))) := by
  have hstep : applyInvoiceOps table (saveInvoiceItemsOps bc items)
      = (table.filter fun r => !(decide (r.billingCycle = bc))) ++ items := by
    calc applyInvoiceOps table (saveInvoiceItemsOps bc items)
        = applyInvoiceOps (table.filter fun r => !(decide (r.billingCycle = bc)))
            (items.map InvoiceDbOp.insertItem) := rfl
      _ = (table.filter fun r => !(decide (r.billingCycle = bc))) ++ items :=
          applyInvoiceOps_insertItems _ _
  rw [hstep]
  constructor
  · rw [List.filter_append, List.filter_filter]
    have h1 : table.filter
        (fun a => decide (a.billingCycle = bc) && !(decide (a.billingCycle = bc))) = [] := by
      apply List.filter_eq_nil_iff.mpr
      intro a _
      simp
    have h2 : items.filter (fun r => decide (r.billingCycle = bc)) = items :=
      List.filter_eq_self.mpr (fun a ha => by simp [hcycle a ha])
    rw [h1, h2, List.nil_append]
  · rw [List.filter_append, List.filter_filter]
    have h3 : items.filter (fun r => !(decide (r.billingCycle = bc))) = [] := by
      apply List.filter_eq_nil_iff.mpr
      intro a ha
      simp [hcycle a ha]
    have h4 : table.filter
        (fun a => !(decide (a.billingCycle = bc)) && !(decide (a.billingCycle = bc)))
        = table.filter (fun r => !(decide (r.billingCycle = bc))) := by
      simp
    rw [h3, h4, List.append_nil]

/-- C5: saving invoice items for a billing cycle is an atomic wholesale
replace.  On commit, the durable rows of that cycle are exactly the
supplied items and rows of other cycles are untouched; on a failure at any
statement of the transaction, the rollback leaves the table exactly as it
was before the call (so other cycles are untouched then as well). -/
theorem saveInvoiceItems_replace (bc : String) (table items : List InvoiceItemRow)
    (failAt : Option Nat) (hcycle : ∀ it ∈ items, it.billingCycle = bc) :
    ((SaveInvoiceItems bc table items failAt).1 = true →
      (SaveInvoiceItems bc table items failAt).2.filter
          (fun r => decide (r.billingCycle = bc)) = items
      ∧ (SaveInvoiceItems bc table items failAt).2.filter
          (fun r => !(decide (r.billingCycle = bc)))
        = table.filter (fun r => !(decide (r.billingCycle = bc))))
    ∧ ((SaveInvoiceItems bc table items failAt).1 = false →
      (SaveInvoiceItems bc table items failAt).2 = table) := by
  rcases failAt with - | k
  · exact ⟨fun _ => saveInvoiceItems_committed_state bc table items hcycle,
      fun h => absurd h (by simp [SaveInvoiceItems, runInvoiceTransaction])⟩
  · by_cases hk : k < (saveInvoiceItemsOps bc items).length
    · have hres : SaveInvoiceItems bc table items (some k) = (false, table) := by
        simp [SaveInvoiceItems, runInvoiceTransaction, hk]
      rw [hres]
      exact ⟨fun h => absurd h (by simp), fun _ => rfl⟩
    · have hres : SaveInvoiceItems bc table items (some k)
          = (true, applyInvoiceOps table (saveInvoiceItemsOps bc items)) := by
        simp [SaveInvoiceItems, runInvoiceTransaction, hk]
      rw [hres]
      exact ⟨fun _ => saveInvoiceItems_committed_state bc table items hcycle,
        fun h => absurd h (by simp)⟩

/-- Witness for C5: replacing cycle "c" in a table holding one old "c" row
and one "d" row with a single new item commits to exactly the new item for
"c" (with the "d" row untouched), while a failure at statement 1 rolls the
table back unchanged. -/
theorem saveInvoiceItems_replace_witness :
    (SaveInvoiceItems "c" [⟨"c", "old", 9, 900, false, 1⟩, ⟨"d", "keep", 2, 200, false, 1⟩]
        [⟨"c", "m1", 1, 100, false, 5⟩] none).2.filter
        (fun r => decide (r.billingCycle = "c"))
      = [⟨"c", "m1", 1, 100, false, 5⟩]
    ∧ (SaveInvoiceItems "c" [⟨"c", "old", 9, 900, false, 1⟩, ⟨"d", "keep", 2, 200, false, 1⟩]
        [⟨"c", "m1", 1, 100, false, 5⟩] (some 1)).2
      = [⟨"c", "old", 9, 900, false, 1⟩, ⟨"d", "keep", 2, 200, false, 1⟩] :=
  ⟨((saveInvoiceItems_replace "c"
      [⟨"c", "old", 9, 900, false, 1⟩, ⟨"d", "keep", 2, 200, false, 1⟩]
      [⟨"c", "m1", 1, 100, false, 5⟩] none (by decide)).1 rfl).1,
   (saveInvoiceItems_replace "c"
      [⟨"c", "old", 9, 900, false, 1⟩, ⟨"d", "keep", 2, 200, false, 1⟩]
      [⟨"c", "m1", 1, 100, false, 5⟩] (some 1) (by decide)).2 rfl⟩

theorem alertAlreadySent_iff_count (ledger : List AlertRow) (th : ℚ) (bc : String) :
    AlertAlreadySent ledger "threshold" th bc = true ↔ 0 < countThresholdEntries ledger th bc := by
  unfold AlertAlreadySent countThresholdEntries
  rw [List.any_eq_true, List.countP_pos_iff]

theorem countThresholdEntries_append_row (ledger : List AlertRow) (now : Int) (th th2 : ℚ)
    (bc : String) :
    countThresholdEntries (ledger ++ [⟨now, "threshold", th, bc⟩]) th2 bc
      = countThresholdEntries ledger th2 bc + (if th = th2 then 1 else 0) := by
  unfold countThresholdEntries
  rw [List.countP_append]
  congr 1
  by_cases h : th = th2 <;> simp [List.countP_cons, h]

theorem checkStep_skip (usagePct th : ℚ) (rest : List ℚ) (bc : String) (now : Int)
    (deliverOk : ℚ → Bool) (ledger : List AlertRow) (h1 : ¬ th ≤ usagePct) :
    CheckThresholdAlert usagePct (th :: rest) bc now deliverOk ledger
      = CheckThresholdAlert usagePct rest bc now deliverOk ledger := by
  conv_lhs => unfold CheckThresholdAlert
  rw [if_neg h1]

theorem checkStep_sent (usagePct th : ℚ) (rest : List ℚ) (bc : String) (now : Int)
    (deliverOk : ℚ → Bool) (ledger : List AlertRow) (h1 : th ≤ usagePct)
    (h2 : AlertAlreadySent ledger "threshold" th bc = true) :
    CheckThresholdAlert usagePct (th :: rest) bc now deliverOk ledger
      = CheckThresholdAlert usagePct rest bc now deliverOk ledger := by
  conv_lhs => unfold CheckThresholdAlert
  rw [if_pos h1, if_pos h2]

theorem checkStep_record (usagePct th : ℚ) (rest : List ℚ) (bc : String) (now : Int)
    (deliverOk : ℚ → Bool) (ledger : List AlertRow) (h1 : th ≤ usagePct)
    (h2 : ¬ AlertAlreadySent ledger "threshold" th bc = true) (hd : deliverOk th = true) :
    CheckThresholdAlert usagePct (th :: rest) bc now deliverOk ledger
      = ((CheckThresholdAlert usagePct rest bc now deliverOk
            (ledger ++ [⟨now, "threshold", th, bc⟩])).1,
         th :: (CheckThresholdAlert usagePct rest bc now deliverOk
            (ledger ++ [⟨now, "threshold", th, bc⟩])).2.1,
         (CheckThresholdAlert usagePct rest bc now deliverOk
            (ledger ++ [⟨now, "threshold", th, bc⟩])).2.2) := by
  have hrec : RecordAlert now ledger "threshold" th bc
      = ledger ++ [⟨now, "threshold", th, bc⟩] := by
    unfold RecordAlert
    rw [if_neg h2]
  conv_lhs => unfold CheckThresholdAlert
  rw [if_pos h1, if_neg h2, if_pos hd, hrec]

theorem checkThresholdAlert_ok (usagePct : ℚ) (thresholds : List ℚ) (bc : String)
    (now : Int) (ledger : List AlertRow) :
    (CheckThresholdAlert usagePct thresholds bc now (fun _ => true) ledger).2.2 = true := by
  induction thresholds generalizing ledger with
  | nil => rfl
  | cons th rest ih =>
    by_cases h1 : th ≤ usagePct
    · by_cases h2 : AlertAlreadySent ledger "threshold" th bc = true
      · rw [checkStep_sent usagePct th rest bc now _ ledger h1 h2]
        exact ih ledger
      · rw [checkStep_record usagePct th rest bc now _ ledger h1 h2 rfl]
        exact ih _
    · rw [checkStep_skip usagePct th rest bc now _ ledger h1]
      exact ih ledger

theorem checkThresholdAlert_count (usagePct : ℚ) (thresholds : List ℚ) (bc : String)
    (now : Int) (ledger : List AlertRow) (th : ℚ) :
    countThresholdEntries
        (CheckThresholdAlert usagePct thresholds bc now (fun _ => true) ledger).1 th bc
      = if th ∈ thresholds ∧ th ≤ usagePct ∧ countThresholdEntries ledger th bc = 0
        then 1 else countThresholdEntries ledger th bc := by
  induction thresholds generalizing ledger with
  | nil =>
    rw [if_neg (by simp)]
    rfl
  | cons th0 rest ih =>
    by_cases h1 : th0 ≤ usagePct
    · by_cases h2 : AlertAlreadySent ledger "threshold" th0 bc = true
      · rw [checkStep_sent usagePct th0 rest bc now _ ledger h1 h2, ih ledger]
        by_cases hth : th = th0
        · subst hth
          have hc : countThresholdEntries ledger th bc ≠ 0 := by
            have := (alertAlreadySent_iff_count ledger th bc).mp h2
            omega
          rw [if_neg (fun h => hc h.2.2), if_neg (fun h => hc h.2.2)]
        · exact if_congr (by simp [List.mem_cons]; tauto) rfl rfl
      · have hc0 : countThresholdEntries ledger th0 bc = 0 := by
          by_contra hne
          exact h2 ((alertAlreadySent_iff_count ledger th0 bc).mpr (by omega))
        rw [checkStep_record usagePct th0 rest bc now _ ledger h1 h2 rfl]
        have hgoal : countThresholdEntries
            (CheckThresholdAlert usagePct rest bc now (fun _ => true)
              (ledger ++ [⟨now, "threshold", th0, bc⟩])).1 th bc
            = if th ∈ rest ∧ th ≤ usagePct
                ∧ countThresholdEntries (ledger ++ [⟨now, "threshold", th0, bc⟩]) th bc = 0
              then 1 else countThresholdEntries (ledger ++ [⟨now, "threshold", th0, bc⟩]) th bc :=
          ih _
        by_cases hth : th = th0
        · subst hth
          have hl1 : countThresholdEntries (ledger ++ [⟨now, "threshold", th, bc⟩]) th bc = 1 := by
            rw [countThresholdEntries_append_row, if_pos rfl, hc0]
          rw [hl1] at hgoal
          rw [hgoal, if_neg (by omega), if_pos ⟨List.mem_cons_self th rest, h1, hc0⟩]
        · have hl1 : countThresholdEntries (ledger ++ [⟨now, "threshold", th0, bc⟩]) th bc
              = countThresholdEntries ledger th bc := by
            rw [countThresholdEntries_append_row, if_neg (fun h => hth h.symm)]
            exact Nat.add_zero _
          rw [hl1] at hgoal
          rw [hgoal]
          exact if_congr (by simp [List.mem_cons]; tauto) rfl rfl
    · rw [checkStep_skip usagePct th0 rest bc now _ ledger h1, ih ledger]
      by_cases hth : th = th0
      · subst hth
        rw [if_neg (fun h => h1 h.2.1), if_neg (fun h => h1 h.2.1)]
      · exact if_congr (by simp [List.mem_cons]; tauto) rfl rfl

/-- C6: on a billing cycle with no prior ledger entries and with
notification delivery succeeding, the threshold check completes without
error and records exactly one ledger entry for every configured threshold
at or below the usage percentage and none for thresholds above it (each
recorded at most once even if listed twice); and a threshold already
present in the ledger for the cycle produces neither a notification nor a
new entry (the check returns the ledger unchanged with an empty delivery
list). -/
theorem thresholdAlert_ledger_once (usagePct : ℚ) (thresholds : List ℚ) (bc : String)
    (now : Int) (ledger : List AlertRow)
    (hprior : ∀ r ∈ ledger, r.billingCycle ≠ bc) :
    (CheckThresholdAlert usagePct thresholds bc now (fun _ => true) ledger).2.2 = true
    ∧ (∀ th, countThresholdEntries
          (CheckThresholdAlert usagePct thresholds bc now (fun _ => true) ledger).1 th bc
        = if th ∈ thresholds ∧ th ≤ usagePct then 1 else 0)
    ∧ (∀ (pct2 th : ℚ) (deliverOk : ℚ → Bool) (ledger2 : List AlertRow),
        AlertAlreadySent ledger2 "threshold" th bc = true →
        CheckThresholdAlert pct2 [th] bc now deliverOk ledger2 = (ledger2, [], true)) := by
  have hzero : ∀ th : ℚ, countThresholdEntries ledger th bc = 0 := by
    intro th
    have hnot : ¬ 0 < countThresholdEntries ledger th bc := by
      intro hpos
      obtain ⟨r, hr, hp⟩ := List.countP_pos_iff.mp hpos
      rw [decide_eq_true_eq] at hp
      exact hprior r hr hp.2.2
    omega
  refine ⟨checkThresholdAlert_ok usagePct thresholds bc now ledger, ?_, ?_⟩
  · intro th
    rw [checkThresholdAlert_count usagePct thresholds bc now ledger th, hzero th]
    by_cases h : th ∈ thresholds ∧ th ≤ usagePct
    · rw [if_pos ⟨h.1, h.2, rfl⟩, if_pos h]
    · rw [if_neg (fun hh => h ⟨hh.1, hh.2.1⟩), if_neg h]
  · intro pct2 th deliverOk ledger2 hsent
    by_cases hle : th ≤ pct2
    · rw [checkStep_sent pct2 th [] bc now deliverOk ledger2 hle hsent]
      rfl
    · rw [checkStep_skip pct2 th [] bc now deliverOk ledger2 hle]
      rfl

/-- Witness for C6 at the claim's numbers: thresholds [75, 90, 100], usage
percentage exactly 75, empty ledger — exactly one entry is recorded, for
threshold 75 only; and a singleton run for a threshold already in the
ledger changes nothing and delivers nothing. -/
theorem thresholdAlert_ledger_once_witness :
    (CheckThresholdAlert 75 [75, 90, 100] "2026-01-01" 0 (fun _ => true) []).2.2 = true
    ∧ countThresholdEntries
        (CheckThresholdAlert 75 [75, 90, 100] "2026-01-01" 0 (fun _ => true) []).1
        75 "2026-01-01" = 1
    ∧ countThresholdEntries
        (CheckThresholdAlert 75 [75, 90, 100] "2026-01-01" 0 (fun _ => true) []).1
        90 "2026-01-01" = 0
    ∧ countThresholdEntries
        (CheckThresholdAlert 75 [75, 90, 100] "2026-01-01" 0 (fun _ => true) []).1
        100 "2026-01-01" = 0
    ∧ CheckThresholdAlert 75 [75] "2026-01-01" 0 (fun _ => true)
          [⟨0, "threshold", 75, "2026-01-01"⟩]
        = ([⟨0, "threshold", 75, "2026-01-01"⟩], [], true) := by
  have h := thresholdAlert_ledger_once 75 [75, 90, 100] "2026-01-01" 0 [] (by simp)
  refine ⟨h.1, ?_, ?_, ?_, ?_⟩
  · rw [h.2.1 75, if_pos ⟨by decide, by decide⟩]
  · rw [h.2.1 90, if_neg (by decide)]
  · rw [h.2.1 100, if_neg (by decide)]
  · exact h.2.2 75 75 (fun _ => true) [⟨0, "threshold", 75, "2026-01-01"⟩] (by decide)

theorem fetchPages_step {α : Type} (server : Nat → List α) (ps fuel page totalCount : Nat)
    (acc : List α) :
    fetchUsageEventPages server ps (fuel + 1) page acc totalCount
      = if (server page).length < ps then some (page, acc ++ server page)
        else if 0 < totalCount ∧ totalCount ≤ (acc ++ server page).length then
          some (page, acc ++ server page)
        else fetchUsageEventPages server ps fuel (page + 1) (acc ++ server page) totalCount := by
  conv_lhs => unfold fetchUsageEventPages

theorem fetchPages_conforming {α : Type} (events : List α) (ps : Nat) (hps : 0 < ps) :
    ∀ fuel q, q * ps < events.length → events.length - q * ps ≤ fuel →
      fetchUsageEventPages (conformingServer events ps) ps fuel (q + 1)
          (events.take (q * ps)) events.length
        = some ((events.length + ps - 1) / ps, events) := by
  intro fuel
  induction fuel with
  | zero =>
    intro q hlt hfuel
    omega
  | succ fuel ih =>
    intro q hlt hfuel
    have hserver : conformingServer events ps (q + 1) = (events.drop (q * ps)).take ps := rfl
    have hacc : events.take (q * ps) ++ (events.drop (q * ps)).take ps
        = events.take (q * ps + ps) := (List.take_add events (q * ps) ps).symm
    have hlenpage : ((events.drop (q * ps)).take ps).length
        = min ps (events.length - q * ps) := by
      rw [List.length_take, List.length_drop]
    rw [fetchPages_step, hserver, hacc]
    by_cases hshort : events.length < q * ps + ps
    · have hmin : min ps (events.length - q * ps) = events.length - q * ps :=
        Nat.min_eq_right (by omega)
      rw [if_pos (by rw [hlenpage, hmin]; omega)]
      rw [List.take_of_length_le (by omega : events.length ≤ q * ps + ps)]
      have hdiv : (events.length + ps - 1) / ps = q + 1 := by
        apply Nat.div_eq_of_lt_le
        · have hm : (q + 1) * ps = q * ps + ps := by ring
          omega
        · have hm : (q + 1 + 1) * ps = q * ps + ps + ps := by ring
          omega
      rw [hdiv]
    · have hlacc : (events.take (q * ps + ps)).length = q * ps + ps := by
        rw [List.length_take]
        exact Nat.min_eq_left (by omega)
      rw [if_neg (by rw [hlenpage]; omega)]
      by_cases hdone : events.length ≤ q * ps + ps
      · rw [if_pos ⟨by omega, by rw [hlacc]; omega⟩]
        rw [List.take_of_length_le (by omega : events.length ≤ q * ps + ps)]
        have hdiv : (events.length + ps - 1) / ps = q + 1 := by
          apply Nat.div_eq_of_lt_le
          · have hm : (q + 1) * ps = q * ps + ps := by ring
            omega
          · have hm : (q + 1 + 1) * ps = q * ps + ps + ps := by ring
            omega
        rw [hdiv]
      · rw [if_neg (by rw [hlacc]; omega)]
        have hm : (q + 1) * ps = q * ps + ps := by ring
        rw [show q * ps + ps = (q + 1) * ps from hm.symm]
        exact ih (q + 1) (by omega) (by omega)

theorem lastPage_length {α : Type} (events : List α) (ps : Nat) (hps : 0 < ps)
    (hn : 0 < events.length) :
    (conformingServer events ps ((events.length + ps - 1) / ps)).length
      = (if events.length % ps = 0 then ps else events.length % ps) := by
  have hdm := Nat.div_add_mod events.length ps
  have hcomm : ps * (events.length / ps) = (events.length / ps) * ps := Nat.mul_comm _ _
  have hmodlt : events.length % ps < ps := Nat.mod_lt _ hps
  unfold conformingServer
  rw [List.length_take, List.length_drop]
  by_cases h0 : events.length % ps = 0
  · rw [if_pos h0]
    have hk1 : 1 ≤ events.length / ps := by
      rcases Nat.eq_zero_or_pos (events.length / ps) with hz | hp
      · exfalso
        rw [hz, Nat.mul_zero] at hdm
        omega
      · omega
    have hc : (events.length + ps - 1) / ps = events.length / ps := by
      have hrw : events.length + ps - 1 = (ps - 1) + (events.length / ps) * ps := by omega
      rw [hrw, Nat.add_mul_div_right _ _ hps, Nat.div_eq_of_lt (by omega), Nat.zero_add]
    rw [hc]
    have hsub : (events.length / ps - 1) * ps = (events.length / ps) * ps - ps := by
      rw [Nat.sub_mul, Nat.one_mul]
    have hge : ps ≤ (events.length / ps) * ps := by
      calc ps = 1 * ps := (Nat.one_mul ps).symm
        _ ≤ (events.length / ps) * ps := Nat.mul_le_mul_right ps hk1
    have hval : events.length - (events.length / ps - 1) * ps = ps := by omega
    rw [hval, Nat.min_self]
  · rw [if_neg h0]
    have hc : (events.length + ps - 1) / ps = events.length / ps + 1 := by
      have hexp : (events.length / ps + 1) * ps = (events.length / ps) * ps + ps := by ring
      have hrw : events.length + ps - 1
          = (events.length % ps - 1) + (events.length / ps + 1) * ps := by omega
      rw [hrw, Nat.add_mul_div_right _ _ hps, Nat.div_eq_of_lt (by omega), Nat.zero_add]
    rw [hc]
    have h11 : events.length / ps + 1 - 1 = events.length / ps := rfl
    rw [h11]
    have hval : events.length - (events.length / ps) * ps = events.length % ps := by omega
    rw [hval]
    exact Nat.min_eq_right (by omega)

/-- C2 (amended to nonempty collections): for every event collection with
total ≥ 1 served by a conforming paginated endpoint reporting that total,
the fetch loop requests exactly ceil(total/pageSize) pages, returns every
event, and the final requested page carries total mod pageSize items
(pageSize items when the remainder is zero); the loop never requests a
page beyond a short one, since a short page returns immediately. -/
theorem paginated_fetch_complete {α : Type} (events : List α) (ps fuel : Nat)
    (hps : 0 < ps) (hn : 0 < events.length) (hfuel : events.length ≤ fuel) :
    getFilteredUsageEvents (conformingServer events ps) ps events.length fuel
      = some ((events.length + ps - 1) / ps, events)
    ∧ (conformingServer events ps ((events.length + ps - 1) / ps)).length
      = (if events.length % ps = 0 then ps else events.length % ps) := by
  constructor
  · have h := fetchPages_conforming events ps hps fuel 0 (by omega) (by omega)
    simpa [getFilteredUsageEvents, Nat.zero_mul] using h
  · exact lastPage_length events ps hps hn

/-- Witness for C2 at a concrete input: 8 events at page size 3 need
ceil(8/3) = 3 pages, the fetch returns all 8 events, and the last page
holds 8 mod 3 = 2 items. -/
theorem paginated_fetch_complete_witness :
    getFilteredUsageEvents (conformingServer (List.range 8) 3) 3 (List.range 8).length 8
      = some (((List.range 8).length + 3 - 1) / 3, List.range 8)
    ∧ (conformingServer (List.range 8) 3 (((List.range 8).length + 3 - 1) / 3)).length
      = (if (List.range 8).length % 3 = 0 then 3 else (List.range 8).length % 3) :=
  paginated_fetch_complete (List.range 8) 3 8 (by decide) (by decide) (by decide)

/-- C2 counterexample: with total = 0 (a conforming endpoint serving an
empty collection), the loop still requests one page — the empty first page
— so pages fetched = 1, not ceil(0/pageSize) = 0 as the claim's formula
requires, and the final page holds 0 items, not pageSize. -/
theorem paginated_fetch_counterexample :
    getFilteredUsageEvents (conformingServer ([] : List Nat) 100) 100 0 5 = some (1, [])
    ∧ (0 + 100 - 1) / 100 = 0
    ∧ (1 : Nat) ≠ (0 + 100 - 1) / 100 := by
  refine ⟨rfl, rfl, by decide⟩

/-- C8 counterexample: the description "7 mid-month payment" matches
neither pattern as the spec words them — not the token-based pattern (the
code's own token-based regexp, already weaker than the spec's wording,
rejects it) and not the spec's `<N> <model> requests` fallback (no
trailing "requests") — yet `ParseInvoiceItem` returns
ok ("mid-month", 7) rather than a parse error. -/
theorem parseInvoiceItem_counterexample :
    tokenBasedMatch "7 mid-month payment" = none
    ∧ specFallbackPattern "7 mid-month payment" = false
    ∧ ParseInvoiceItem ⟨"7 mid-month payment", 0⟩ = Except.ok ("mid-month", 7)
    ∧ isParseError (ParseInvoiceItem ⟨"7 mid-month payment", 0⟩) = false :=
  ⟨rfl, rfl, rfl, rfl⟩

/-- C8 (amended): the line "150 token-based usage calls to claude-4-sonnet,
totalling: $12.50" parses to (model "claude-4-sonnet", count 150) with no
error; and parsing returns an explicit error exactly when the description
matches neither the token-based pattern nor the code's fallback pattern —
which checks only for leading digits, whitespace and a model word, not the
trailing "requests" the spec's wording of the fallback suggests. -/
theorem parseInvoiceItem_error_iff :
    ParseInvoiceItem ⟨"150 token-based usage calls to claude-4-sonnet, totalling: $12.50", 1250⟩
      = Except.ok ("claude-4-sonnet", 150)
    ∧ (∀ item : RemoteInvoiceItem, isParseError (ParseInvoiceItem item) = true
        ↔ (tokenBasedMatch item.description = none ∧ fallbackMatch item.description = none)) := by
  constructor
  · rfl
  · intro item
    cases htb : tokenBasedMatch item.description with
    | none =>
      cases hfb : fallbackMatch item.description with
      | none => simp [ParseInvoiceItem, htb, hfb, isParseError]
      | some v =>
        obtain ⟨m, c⟩ := v
        simp [ParseInvoiceItem, htb, hfb, isParseError]
    | some v =>
      obtain ⟨m, c⟩ := v
      simp [ParseInvoiceItem, htb, isParseError]
